import Mathlib

/-!
Verification of the metrics extraction core of the `proc` repository
(`meminfo.go`, package `proc`).

The embedding below follows the Go source closely:

* Go strings are modelled as `List Char` (`GoString`); input lines and field
  values are such lists, written `"…".toList`.
* `MemInfo` is the snapshot record (46 `string` fields, Go zero value `""`).
* `splitIndex1` models `strings.Split(lineStr, ":")[1]`: Go's `Split` cuts at
  every occurrence of the separator, and indexing `[1]` panics when the
  resulting slice has fewer than two elements.  `none` models the panic.
* `memMapping` is the ordered branch table of `formatMemInfo`'s sequential
  `if/else if` chain: entry order is exactly branch order in the source, each
  entry pairing the `strings.HasPrefix` key with the field assignment of that
  branch.  `chainApply` walks that table exactly as the chain does: the first
  key matching the start of the line fires, later branches are never examined.
* `FormatMemInfo` models the exported method: on a read failure it only emits
  the log record `"read mem info error"` and touches nothing; on success it
  folds `formatMemInfo` over the lines.  The file reader itself
  (`file.ReadFileByLine`, from the external rivet utility module) is a
  collaborator outside this repository; its outcome is passed in as an
  `Except` value.
-/

namespace Proc

/-- A Go string, modelled as its list of characters. -/
abbrev GoString := List Char

/-- The snapshot record of `meminfo.go` (`type MemInfo struct`).  Every field
is a Go `string`, so each field here is a `GoString` whose Go zero value is
the empty string `[]`.  Field order is the declaration order of the struct. -/
structure MemInfo where
  MemTotal : GoString := []
  MemFree : GoString := []
  MemAvailable : GoString := []
  Buffers : GoString := []
  Cached : GoString := []
  SwapCached : GoString := []
  Active : GoString := []
  Inactive : GoString := []
  ActiveAnon : GoString := []
  InactiveAnon : GoString := []
  ActiveFile : GoString := []
  InactiveFile : GoString := []
  Unevictable : GoString := []
  MLocked : GoString := []
  SwapTotal : GoString := []
  SwapFree : GoString := []
  Dirty : GoString := []
  WriteBack : GoString := []
  AnonPages : GoString := []
  Mapped : GoString := []
  Shmem : GoString := []
  Slab : GoString := []
  SReclaimable : GoString := []
  SUnreclaim : GoString := []
  KernelStack : GoString := []
  PageTables : GoString := []
  NFSUnstable : GoString := []
  Bounce : GoString := []
  WriteBackTmp : GoString := []
  CommitLimit : GoString := []
  CommittedAS : GoString := []
  VMAllocTotal : GoString := []
  VMAllocUsed : GoString := []
  VMAllocChunk : GoString := []
  HardwareCorrupted : GoString := []
  AnonHugePages : GoString := []
  CmaTotal : GoString := []
  CmaFree : GoString := []
  HugePagesTotal : GoString := []
  HugePagesFree : GoString := []
  HugePagesRsvd : GoString := []
  HugePagesSurp : GoString := []
  HugePageSize : GoString := []
  DirectMap4k : GoString := []
  DirectMap2M : GoString := []
  DirectMap1G : GoString := []
deriving DecidableEq

/-- A freshly allocated `MemInfo` value: every field holds the Go zero value,
the empty string. -/
def emptyMemInfo : MemInfo := {}

/-- Models Go's `strings.Split(s, sep)` for a one-character separator: the
list of all segments between occurrences of the separator, empty segments
included; a string without the separator yields the one-element list holding
the whole string. -/
def goSplit (sep : Char) : GoString → List GoString
  | [] => [[]]
  | c :: rest =>
    if c = sep then [] :: goSplit sep rest
    else
      match goSplit sep rest with
      | s :: ss => (c :: s) :: ss
      | [] => [[c]]

/-- Models `strings.Split(lineStr, ":")[1]`: the segment between the first
and the second occurrence of `:`.  Indexing `[1]` panics with an
index-out-of-range runtime error when the line holds no `:` at all; `none`
models that panic. -/
def splitIndex1 (lineStr : GoString) : Option GoString :=
  match goSplit ':' lineStr with
  | _ :: v :: _ => some v
  | _ => none

/-- Modelled from the spec: the value trimming `str.Trim` comes from the
external rivet utility module (`github.com/ennoo/rivet/utils/string`), whose
source is not part of this repository.  The spec (§4.1) requires that
leading/trailing whitespace be removed and internal whitespace runs be
reduced to single separators, the unit suffix kept verbatim. -/
def strTrim (s : GoString) : GoString :=
  List.intercalate [' '] ((goSplit ' ' s).filter (fun t => t ≠ []))

/-- The type of one branch body of `formatMemInfo`: given the trimmed value
and the current record, produce the record with that branch's field set. -/
abbrev FieldSetter := GoString → MemInfo → MemInfo

/-- The ordered branch table of `formatMemInfo`'s `if/else if` chain.  The
list order is exactly the branch order in `meminfo.go`; each entry pairs the
`strings.HasPrefix` key of a branch with the assignment the branch body
performs.  Note that the generic keys `Active`, `Inactive` and `Writeback`
appear before `Active(anon)`, `Active(file)`, `Inactive(anon)`,
`Inactive(file)` and `WritebackTmp`, exactly as in the source. -/
def memMapping : List (GoString × FieldSetter) := [
  ("MemTotal".toList, fun v m => { m with MemTotal := v }),
  ("MemFree".toList, fun v m => { m with MemFree := v }),
  ("MemAvailable".toList, fun v m => { m with MemAvailable := v }),
  ("Buffers".toList, fun v m => { m with Buffers := v }),
  ("Cached".toList, fun v m => { m with Cached := v }),
  ("SwapCached".toList, fun v m => { m with SwapCached := v }),
  ("Active".toList, fun v m => { m with Active := v }),
  ("Inactive".toList, fun v m => { m with Inactive := v }),
  ("Active(anon)".toList, fun v m => { m with ActiveAnon := v }),
  ("Inactive(anon)".toList, fun v m => { m with InactiveAnon := v }),
  ("Active(file)".toList, fun v m => { m with ActiveFile := v }),
  ("Inactive(file)".toList, fun v m => { m with InactiveFile := v }),
  ("Unevictable".toList, fun v m => { m with Unevictable := v }),
  ("Mlocked".toList, fun v m => { m with MLocked := v }),
  ("SwapTotal".toList, fun v m => { m with SwapTotal := v }),
  ("SwapFree".toList, fun v m => { m with SwapFree := v }),
  ("Dirty".toList, fun v m => { m with Dirty := v }),
  ("Writeback".toList, fun v m => { m with WriteBack := v }),
  ("AnonPages".toList, fun v m => { m with AnonPages := v }),
  ("Mapped".toList, fun v m => { m with Mapped := v }),
  ("Shmem".toList, fun v m => { m with Shmem := v }),
  ("Slab".toList, fun v m => { m with Slab := v }),
  ("SReclaimable".toList, fun v m => { m with SReclaimable := v }),
  ("SUnreclaim".toList, fun v m => { m with SUnreclaim := v }),
  ("KernelStack".toList, fun v m => { m with KernelStack := v }),
  ("PageTables".toList, fun v m => { m with PageTables := v }),
  ("NFS_Unstable".toList, fun v m => { m with NFSUnstable := v }),
  ("Bounce".toList, fun v m => { m with Bounce := v }),
  ("WritebackTmp".toList, fun v m => { m with WriteBackTmp := v }),
  ("CommitLimit".toList, fun v m => { m with CommitLimit := v }),
  ("Committed_AS".toList, fun v m => { m with CommittedAS := v }),
  ("VmallocTotal".toList, fun v m => { m with VMAllocTotal := v }),
  ("VmallocUsed".toList, fun v m => { m with VMAllocUsed := v }),
  ("VmallocChunk".toList, fun v m => { m with VMAllocChunk := v }),
  ("HardwareCorrupted".toList, fun v m => { m with HardwareCorrupted := v }),
  ("AnonHugePages".toList, fun v m => { m with AnonHugePages := v }),
  ("CmaTotal".toList, fun v m => { m with CmaTotal := v }),
  ("CmaFree".toList, fun v m => { m with CmaFree := v }),
  ("HugePages_Total".toList, fun v m => { m with HugePagesTotal := v }),
  ("HugePages_Free".toList, fun v m => { m with HugePagesFree := v }),
  ("HugePages_Rsvd".toList, fun v m => { m with HugePagesRsvd := v }),
  ("HugePages_Surp".toList, fun v m => { m with HugePagesSurp := v }),
  ("Hugepagesize".toList, fun v m => { m with HugePageSize := v }),
  ("DirectMap4k".toList, fun v m => { m with DirectMap4k := v }),
  ("DirectMap2M".toList, fun v m => { m with DirectMap2M := v }),
  ("DirectMap1G".toList, fun v m => { m with DirectMap1G := v })
]

/-- A never-used default entry for out-of-range table lookups. -/
def noEntry : GoString × FieldSetter := ([], fun _ m => m)

/-- Walks a branch table exactly as `formatMemInfo`'s sequential chain does:
the first entry whose key satisfies `strings.HasPrefix(lineStr, key)` fires,
its branch body computes `str.Trim(strings.Split(lineStr, ":")[1])` and
assigns it (`none` = the indexing panic); when no entry matches, the record
is returned unchanged.  Later entries of a fired chain are never examined. -/
def chainApply : List (GoString × FieldSetter) → MemInfo → GoString → Option MemInfo
  | [], m, _ => some m
  | (k, f) :: rest, m, lineStr =>
    if k.isPrefixOf lineStr then
      (splitIndex1 lineStr).map (fun v => f (strTrim v) m)
    else
      chainApply rest m lineStr

/-- `func (m *MemInfo) formatMemInfo(lineStr string)`: one line of input run
through the branch chain.  `none` models the runtime panic of
`strings.Split(lineStr, ":")[1]` on a matched line without a `:`. -/
def formatMemInfo (m : MemInfo) (lineStr : GoString) : Option MemInfo :=
  chainApply memMapping m lineStr

/-- The index of the first branch of a chain whose key matches the start of
the line, if any. -/
def matchIndexAux : List (GoString × FieldSetter) → GoString → Option Nat
  | [], _ => none
  | (k, _) :: rest, lineStr =>
    if k.isPrefixOf lineStr then some 0
    else (matchIndexAux rest lineStr).map (fun i => i + 1)

/-- The branch index a line resolves to in `formatMemInfo`'s chain. -/
def matchIndex (lineStr : GoString) : Option Nat :=
  matchIndexAux memMapping lineStr

/-- The trimmed value a line carries, when it is tokenizable at all. -/
def lineValue (lineStr : GoString) : Option GoString :=
  (splitIndex1 lineStr).map strTrim

/-- The loop of `FormatMemInfo`:
`for index := range data { m.formatMemInfo(data[index]) }`.
A panic in any iteration aborts the whole extraction (`none`). -/
def processLines : MemInfo → List GoString → Option MemInfo
  | m, [] => some m
  | m, lineStr :: rest =>
    match formatMemInfo m lineStr with
    | none => none
    | some m2 => processLines m2 rest

/-- `func (m *MemInfo) FormatMemInfo(filePath string)`: the outcome of the
external reader `file.ReadFileByLine(filePath)` is passed in as an `Except`
value.  On a read error the method only hands the record
`"read mem info error"` to the logging collaborator and performs no field
assignment; otherwise it folds `formatMemInfo` over the lines.  The method
returns nothing in Go; the caller-visible outcome is the receiver
(first component, `none` = panic), the second component is what reaches the
logging collaborator. -/
def FormatMemInfo (m : MemInfo) (readResult : Except String (List GoString)) :
    Option MemInfo × List String :=
  match readResult with
  | Except.error _ => (some m, ["read mem info error"])
  | Except.ok data => (processLines m data, [])

/-- The 46 fields of a snapshot, in struct declaration order (which is also
the branch order of the chain: branch `i` of `memMapping` assigns field `i`). -/
def fieldsOf (m : MemInfo) : List GoString :=
  [m.MemTotal, m.MemFree, m.MemAvailable, m.Buffers, m.Cached, m.SwapCached,
   m.Active, m.Inactive, m.ActiveAnon, m.InactiveAnon, m.ActiveFile,
   m.InactiveFile, m.Unevictable, m.MLocked, m.SwapTotal, m.SwapFree,
   m.Dirty, m.WriteBack, m.AnonPages, m.Mapped, m.Shmem, m.Slab,
   m.SReclaimable, m.SUnreclaim, m.KernelStack, m.PageTables, m.NFSUnstable,
   m.Bounce, m.WriteBackTmp, m.CommitLimit, m.CommittedAS, m.VMAllocTotal,
   m.VMAllocUsed, m.VMAllocChunk, m.HardwareCorrupted, m.AnonHugePages,
   m.CmaTotal, m.CmaFree, m.HugePagesTotal, m.HugePagesFree, m.HugePagesRsvd,
   m.HugePagesSurp, m.HugePageSize, m.DirectMap4k, m.DirectMap2M,
   m.DirectMap1G]

/-- Applying the setter of branch `i` (out-of-range indices apply the inert
default entry). -/
def applyIdx (i : Nat) (v : GoString) (m : MemInfo) : MemInfo :=
  (memMapping.getD i noEntry).2 v m

/-! ## Helper lemmas about the branch chain -/


theorem matchIndexAux_none_chainApply (es : List (GoString × FieldSetter)) (lineStr : GoString)
    (h : matchIndexAux es lineStr = none) (m : MemInfo) :
    chainApply es m lineStr = some m := by
  induction es generalizing m with
  | nil => rfl
  | cons e rest ih =>
    obtain ⟨k, f⟩ := e
    cases hk : k.isPrefixOf lineStr with
    | true => simp [matchIndexAux, hk] at h
    | false =>
      simp only [matchIndexAux, hk, Bool.false_eq_true, if_false] at h
      have h2 : matchIndexAux rest lineStr = none := by
        cases hmi : matchIndexAux rest lineStr <;> simp [hmi] at h ⊢
      simp only [chainApply, hk, Bool.false_eq_true, if_false]
      exact ih h2 m

theorem matchIndexAux_some_chainApply (es : List (GoString × FieldSetter)) (lineStr : GoString)
    (i : Nat) (h : matchIndexAux es lineStr = some i) :
    i < es.length ∧
      ∀ m : MemInfo, chainApply es m lineStr =
        (splitIndex1 lineStr).map (fun v => (es.getD i noEntry).2 (strTrim v) m) := by
  induction es generalizing i with
  | nil => simp [matchIndexAux] at h
  | cons e rest ih =>
    obtain ⟨k, f⟩ := e
    cases hk : k.isPrefixOf lineStr with
    | true =>
      simp only [matchIndexAux, hk, if_true, Option.some.injEq] at h
      subst h
      refine ⟨Nat.succ_pos _, fun m => ?_⟩
      simp [chainApply, hk, List.getD]
    | false =>
      simp only [matchIndexAux, hk, Bool.false_eq_true, if_false] at h
      obtain ⟨j, hj, hji⟩ : ∃ j, matchIndexAux rest lineStr = some j ∧ j + 1 = i := by
        cases hmi : matchIndexAux rest lineStr <;> simp [hmi] at h ⊢
        exact h
      obtain ⟨hlen, happ⟩ := ih j hj
      subst hji
      refine ⟨Nat.succ_lt_succ hlen, fun m => ?_⟩
      simp only [chainApply, hk, Bool.false_eq_true, if_false, happ m, List.getD_cons_succ]

theorem fieldsOf_applyIdx (i : Nat) (hi : i < 46) (v : GoString) (m : MemInfo) :
    fieldsOf (applyIdx i v m) = (fieldsOf m).set i v := by
  interval_cases i <;> rfl

theorem applyIdx_applyIdx (i : Nat) (v1 v2 : GoString) (m : MemInfo) :
    applyIdx i v2 (applyIdx i v1 m) = applyIdx i v2 m := by
  by_cases hi : i < 46
  · interval_cases i <;> rfl
  · have hlen : memMapping.length ≤ i := by
      have : memMapping.length = 46 := rfl
      omega
    show (memMapping.getD i noEntry).2 v2 ((memMapping.getD i noEntry).2 v1 m) =
      (memMapping.getD i noEntry).2 v2 m
    rw [List.getD_eq_default _ noEntry hlen]
    rfl

theorem memMapping_length : memMapping.length = 46 := rfl

theorem fieldsOf_length (m : MemInfo) : (fieldsOf m).length = 46 := rfl



/-! ## Claim theorems -/

/-- C1 (the code at the spec's own test input): the generic `Active` branch
precedes `Active(anon)` in the chain, so the line `Active(anon): 50 kB`
is captured by the `Active` field (overwriting `Active: 100 kB`) and
`ActiveAnon` is never populated — in either line order. -/
theorem prefixShadowing_code_eval :
    (processLines emptyMemInfo ["Active: 100 kB".toList, "Active(anon): 50 kB".toList]).map
        (fun m => (m.Active, m.ActiveAnon)) = some ("50 kB".toList, []) ∧
    (processLines emptyMemInfo ["Active(anon): 50 kB".toList, "Active: 100 kB".toList]).map
        (fun m => (m.Active, m.ActiveAnon)) = some ("100 kB".toList, []) :=
  ⟨by decide, by decide⟩

/-- C2 (the code at the failing input): a line that begins with a recognized
key but holds no `:` makes `strings.Split(lineStr, ":")[1]` panic (`none`),
and that panic aborts the whole extraction rather than skipping the line. -/
theorem noDelimiterPanic_code_eval :
    formatMemInfo emptyMemInfo "MemTotal".toList = none ∧
    FormatMemInfo emptyMemInfo
        (Except.ok ["MemTotal".toList, "MemFree: 1 kB".toList]) = (none, []) :=
  ⟨rfl, rfl⟩

/-- C3 counterexample: at the concrete read failure, the caller-visible
outcome of `FormatMemInfo` is the untouched receiver — identical to a
successful extraction over an empty source — and the failure surfaces only
as the log record `"read mem info error"`.  No typed failure reaches the
caller. -/
theorem sourceUnavailable_counterexample :
    (FormatMemInfo emptyMemInfo (Except.error "open /proc/meminfo failed")).1 =
      (FormatMemInfo emptyMemInfo (Except.ok [])).1 ∧
    (FormatMemInfo emptyMemInfo (Except.error "open /proc/meminfo failed")).2 =
      ["read mem info error"] :=
  ⟨rfl, rfl⟩

/-- C3 amended: when the line source cannot be opened or read, the failure is
reported to the logging collaborator only (`"read mem info error"`); no error
value is surfaced to the caller, and the receiver snapshot is returned
entirely unmodified. -/
theorem sourceUnavailable_amended (m : MemInfo) (e : String) :
    FormatMemInfo m (Except.error e) = (some m, ["read mem info error"]) :=
  rfl

/-- C4 counterexample: a field explicitly set to an empty value (line
`MemTotal:`) yields a snapshot equal to one whose key never appeared at all —
absence and explicit emptiness are not distinguishable. -/
theorem absentField_counterexample :
    processLines emptyMemInfo ["MemTotal:".toList] = processLines emptyMemInfo [] ∧
    emptyMemInfo.MemTotal = [] :=
  ⟨by decide, rfl⟩

/-- C4 amended: every field is a plain Go string whose zero value is the
empty string; a field whose key never appeared holds `""`, the same
representation as a field explicitly set to an empty value. -/
theorem absentField_amended :
    fieldsOf emptyMemInfo = List.replicate 46 [] ∧
    processLines emptyMemInfo ["MemTotal:".toList] = some emptyMemInfo :=
  ⟨rfl, by decide⟩

/-- Following the spec's words for the refinement claim C5: the entire
remainder of the line after the FIRST occurrence of the delimiter (`none`
when the delimiter is absent). -/
def remainderAfterFirst (sep : Char) : GoString → Option GoString
  | [] => none
  | c :: rest => if c = sep then some rest else remainderAfterFirst sep rest

theorem goSplit_ne_nil (sep : Char) (s : GoString) : goSplit sep s ≠ [] := by
  cases s with
  | nil => simp [goSplit]
  | cons c rest =>
    by_cases h : c = sep
    · simp [goSplit, h]
    · simp only [goSplit, h, if_false]
      cases goSplit sep rest <;> simp

theorem goSplit_cons_self (sep : Char) (rest : GoString) :
    goSplit sep (sep :: rest) = [] :: goSplit sep rest := by
  simp [goSplit]

theorem remainderAfterFirst_cons_self (sep : Char) (rest : GoString) :
    remainderAfterFirst sep (sep :: rest) = some rest := by
  simp [remainderAfterFirst]

theorem remainderAfterFirst_cons_ne (sep c : Char) (rest : GoString) (h : ¬ c = sep) :
    remainderAfterFirst sep (c :: rest) = remainderAfterFirst sep rest := by
  simp [remainderAfterFirst, h]

theorem goSplit_no_sep (sep : Char) (s : GoString) (h : sep ∉ s) : goSplit sep s = [s] := by
  induction s with
  | nil => rfl
  | cons c rest ih =>
    simp only [List.mem_cons, not_or] at h
    obtain ⟨h1, h2⟩ := h
    have hc : ¬ c = sep := fun e => h1 e.symm
    simp only [goSplit]
    rw [if_neg hc, ih h2]

theorem splitIndex1_cons (c : Char) (rest : GoString) (h : ¬ c = ':') :
    splitIndex1 (c :: rest) = splitIndex1 rest := by
  simp only [splitIndex1, goSplit, h, if_false]
  cases hg : goSplit ':' rest with
  | nil => exact absurd hg (goSplit_ne_nil ':' rest)
  | cons s ss => cases ss <;> rfl

/-- C5 counterexample: for the line `MemTotal: 100:200 kB`, the stored value
is `100` (the segment between the first and second `:`), not the trimmed
entire remainder `100:200 kB` after the first `:`. -/
theorem firstSplit_counterexample :
    (processLines emptyMemInfo ["MemTotal: 100:200 kB".toList]).map (fun m => m.MemTotal) =
      some "100".toList ∧
    (remainderAfterFirst ':' "MemTotal: 100:200 kB".toList).map strTrim =
      some "100:200 kB".toList ∧
    "100".toList ≠ "100:200 kB".toList :=
  ⟨by decide, by decide, by decide⟩

/-- C5 amended: tokenization stores the segment between the first and second
occurrence of the delimiter (`strings.Split(lineStr, ":")[1]`); whenever the
remainder after the first delimiter contains no further delimiter — every
well-formed meminfo line — this coincides with the entire trimmed remainder
of the line after the first delimiter. -/
theorem firstSplit_amended (l r : GoString)
    (h : remainderAfterFirst ':' l = some r) (hr : ':' ∉ r) :
    lineValue l = some (strTrim r) := by
  have hs : splitIndex1 l = some r := by
    induction l with
    | nil => simp [remainderAfterFirst] at h
    | cons c rest ih =>
      by_cases hc : c = ':'
      · subst hc
        rw [remainderAfterFirst_cons_self] at h
        injection h with h
        subst h
        unfold splitIndex1
        rw [goSplit_cons_self, goSplit_no_sep ':' rest hr]
      · rw [remainderAfterFirst_cons_ne ':' c rest hc] at h
        rw [splitIndex1_cons c rest hc]
        exact ih h
  simp [lineValue, hs]

/-- C5 witness for the amended theorem at a well-formed concrete line. -/
theorem firstSplit_amended_witness :
    lineValue "MemTotal: 3965536 kB".toList = some (strTrim " 3965536 kB".toList) :=
  firstSplit_amended "MemTotal: 3965536 kB".toList " 3965536 kB".toList (by decide) (by decide)



/-- C6: unknown-key tolerance.  A line whose key matches no entry of the
branch chain leaves the record untouched and raises nothing, so extraction
over a sequence containing it equals extraction over the sequence with that
line removed. -/
theorem unknownKeyTolerance (m : MemInfo) (pre post : List GoString) (lineStr : GoString)
    (h : matchIndex lineStr = none) :
    processLines m (pre ++ lineStr :: post) = processLines m (pre ++ post) := by
  induction pre generalizing m with
  | nil =>
    have hskip : formatMemInfo m lineStr = some m :=
      matchIndexAux_none_chainApply memMapping lineStr h m
    show processLines m (lineStr :: post) = processLines m post
    simp [processLines, hskip]
  | cons l pre ih =>
    show processLines m (l :: (pre ++ lineStr :: post)) =
      processLines m (l :: (pre ++ post))
    simp only [processLines]
    cases formatMemInfo m l with
    | none => rfl
    | some m2 => exact ih m2

/-- C6 witness: the spec's own example key `FutureKernelField` at a concrete
input sequence. -/
theorem unknownKeyTolerance_witness :
    processLines emptyMemInfo
        ["MemTotal: 1 kB".toList, "FutureKernelField: 1 kB".toList] =
      processLines emptyMemInfo ["MemTotal: 1 kB".toList] :=
  unknownKeyTolerance emptyMemInfo ["MemTotal: 1 kB".toList] []
    "FutureKernelField: 1 kB".toList (by decide)

/-- C7: last-write-wins on duplicate keys.  When two tokenizable lines
resolve to the same branch `i`, the earlier one may be dropped from the
sequence without changing the outcome; on the two-line sequence the result
is the record with field `i` holding the later line's value. -/
theorem duplicateKeyLastWins (m : MemInfo) (pre post : List GoString)
    (l1 l2 : GoString) (i : Nat) (v1 v2 : GoString)
    (h1 : matchIndex l1 = some i) (h2 : matchIndex l2 = some i)
    (hv1 : lineValue l1 = some v1) (hv2 : lineValue l2 = some v2) :
    processLines m (pre ++ l1 :: l2 :: post) = processLines m (pre ++ l2 :: post) ∧
      processLines m [l1, l2] = some (applyIdx i v2 m) ∧
      (fieldsOf (applyIdx i v2 m)).getD i [] = v2 := by
  obtain ⟨hi, happ1⟩ := matchIndexAux_some_chainApply memMapping l1 i h1
  obtain ⟨-, happ2⟩ := matchIndexAux_some_chainApply memMapping l2 i h2
  obtain ⟨w1, hw1, hv1e⟩ : ∃ w, splitIndex1 l1 = some w ∧ strTrim w = v1 := by
    cases hsp : splitIndex1 l1 <;> simp [lineValue, hsp] at hv1 ⊢
    exact hv1
  obtain ⟨w2, hw2, hv2e⟩ : ∃ w, splitIndex1 l2 = some w ∧ strTrim w = v2 := by
    cases hsp : splitIndex1 l2 <;> simp [lineValue, hsp] at hv2 ⊢
    exact hv2
  have f1 : ∀ mm : MemInfo, formatMemInfo mm l1 = some (applyIdx i v1 mm) := by
    intro mm
    rw [formatMemInfo, happ1 mm, hw1]
    simp [applyIdx, hv1e]
  have f2 : ∀ mm : MemInfo, formatMemInfo mm l2 = some (applyIdx i v2 mm) := by
    intro mm
    rw [formatMemInfo, happ2 mm, hw2]
    simp [applyIdx, hv2e]
  have hi46 : i < 46 := by
    have hlen : memMapping.length = 46 := rfl
    omega
  refine ⟨?_, ?_, ?_⟩
  · induction pre generalizing m with
    | nil =>
      show processLines m (l1 :: l2 :: post) = processLines m (l2 :: post)
      simp [processLines, f1, f2, applyIdx_applyIdx]
    | cons l pre ih =>
      show processLines m (l :: (pre ++ l1 :: l2 :: post)) =
        processLines m (l :: (pre ++ l2 :: post))
      simp only [processLines]
      cases formatMemInfo m l with
      | none => rfl
      | some m2 => exact ih m2
  · simp [processLines, f1, f2, applyIdx_applyIdx]
  · rw [fieldsOf_applyIdx i hi46, List.getD_eq_getElem?_getD,
      List.getElem?_set_eq_of_lt]
    · rfl
    · rw [fieldsOf_length]
      exact hi46

/-- C7 witness: two concrete `SwapTotal` lines; the later value `2 kB`
wins. -/
theorem duplicateKeyLastWins_witness :
    (processLines emptyMemInfo
          (([] : List GoString) ++ "SwapTotal: 1 kB".toList :: "SwapTotal: 2 kB".toList :: []) =
        processLines emptyMemInfo (([] : List GoString) ++ "SwapTotal: 2 kB".toList :: [])) ∧
      processLines emptyMemInfo ["SwapTotal: 1 kB".toList, "SwapTotal: 2 kB".toList] =
        some (applyIdx 14 "2 kB".toList emptyMemInfo) ∧
      (fieldsOf (applyIdx 14 "2 kB".toList emptyMemInfo)).getD 14 [] = "2 kB".toList :=
  duplicateKeyLastWins emptyMemInfo [] [] "SwapTotal: 1 kB".toList "SwapTotal: 2 kB".toList
    14 "1 kB".toList "2 kB".toList (by decide) (by decide) (by decide) (by decide)

/-- C8 (spec-modelled trimming): the spec's whitespace-normalization example.
The value part of `MemTotal:      3965536 kB` is stored as `3965536 kB`:
the leading run of spaces is removed and the unit suffix kept verbatim,
separated by a single space. -/
theorem whitespaceNormalization :
    (processLines emptyMemInfo ["MemTotal:      3965536 kB".toList]).map
        (fun m => m.MemTotal) = some "3965536 kB".toList ∧
    strTrim "      3965536 kB".toList = "3965536 kB".toList :=
  ⟨by decide, by decide⟩

/-- C9: per-line frame property.  One call of `formatMemInfo` changes at most
the field of the first matching branch: every field whose index differs from
the resolved branch index keeps its previous value (and when no branch
matches, the whole record is unchanged). -/
theorem perLineFrame (m m2 : MemInfo) (lineStr : GoString)
    (h : formatMemInfo m lineStr = some m2)
    (j : Nat) (hj : matchIndex lineStr ≠ some j) :
    (fieldsOf m2)[j]? = (fieldsOf m)[j]? := by
  cases hmi : matchIndex lineStr with
  | none =>
    have hskip := matchIndexAux_none_chainApply memMapping lineStr hmi m
    rw [formatMemInfo] at h
    rw [hskip] at h
    injection h with h
    rw [h]
  | some i =>
    obtain ⟨hi, happ⟩ := matchIndexAux_some_chainApply memMapping lineStr i hmi
    rw [formatMemInfo, happ m] at h
    obtain ⟨w, hw, hm2⟩ :
        ∃ w, splitIndex1 lineStr = some w ∧
          (memMapping.getD i noEntry).2 (strTrim w) m = m2 := by
      cases hsp : splitIndex1 lineStr <;> simp [hsp] at h ⊢
      exact h
    have hi46 : i < 46 := by
      have hlen : memMapping.length = 46 := rfl
      omega
    have hij : i ≠ j := fun e => hj (e ▸ hmi)
    rw [← hm2]
    show (fieldsOf (applyIdx i (strTrim w) m))[j]? = (fieldsOf m)[j]?
    rw [fieldsOf_applyIdx i hi46]
    exact List.getElem?_set_ne hij

/-- C9 witness: the line `MemFree: 5 kB` resolves to branch 1; field 0
(`MemTotal`) is untouched. -/
theorem perLineFrame_witness :
    (fieldsOf (applyIdx 1 "5 kB".toList emptyMemInfo))[0]? =
      (fieldsOf emptyMemInfo)[0]? :=
  perLineFrame emptyMemInfo (applyIdx 1 "5 kB".toList emptyMemInfo)
    "MemFree: 5 kB".toList (by decide) 0 (by decide)

/-- C10: atomicity on read failure.  When the external reader fails,
`FormatMemInfo` performs no field assignment at all: the caller-visible
receiver is exactly the record held before the call. -/
theorem readFailureAtomic (m : MemInfo) (e : String) :
    (FormatMemInfo m (Except.error e)).1 = some m ∧
      fieldsOf ((FormatMemInfo m (Except.error e)).1.getD emptyMemInfo) = fieldsOf m :=
  ⟨rfl, rfl⟩


end Proc
